import Mathlib

/-!
Verification development for the price_tracker repository.

The definitions below are shallow embeddings of the Python source:
* `src/extractors/base.py` — price-string parsing, LLM-response parsing and
  normalization,
* `src/crawler.py` — the content-window selector,
* `src/database.py` — the persistence layer over SQLite,
* `scripts/scrape_all.py` — the batch orchestrator.

Strings are modelled as lists of characters; machine floats produced by
Python's `float()` are modelled by exact rationals plus the special values
`inf`/`-inf`/`nan` (`PyFloat`); the character classes of the regexes involved
are modelled over ASCII.
-/

namespace PriceTracker

/-- ASCII whitespace, the characters matched by the regex class `\s`
(the inputs of interest contain no non-ASCII whitespace). -/
def isPySpace (c : Char) : Bool :=
  c = ' ' || c = '\t' || c = '\n' || c = '\r' || c = '\x0b' || c = '\x0c'

/-- The character class `[$€£¥,\s]` removed by `re.sub` in `_parse_price`
(`src/extractors/base.py` line 119). -/
def isPriceStripped (c : Char) : Bool :=
  c = '$' || c = '€' || c = '£' || c = '¥' || c = ',' || isPySpace c

/-- `re.sub(r'[$€£¥,\s]', '', price_str)`: every occurrence of a currency
symbol, comma or whitespace character is removed. -/
def stripPriceChars (cs : List Char) : List Char :=
  cs.filter (fun c => !isPriceStripped c)

/-- String-level wrapper for `stripPriceChars`. -/
def stripPrice (s : String) : String :=
  String.mk (stripPriceChars s.data)

/-- The result of Python's `float()`: a finite value (modelled exactly as a
rational) or one of the special values `inf`, `-inf`, `nan`. -/
inductive PyFloat where
  | finite (q : ℚ)
  | inf
  | ninf
  | nan
deriving DecidableEq, Repr

/-- Consume an optional leading sign; returns `true` when the sign is `-`. -/
def readSign : List Char → Bool × List Char
  | [] => (false, [])
  | c :: rest =>
    if c = '+' then (false, rest)
    else if c = '-' then (true, rest)
    else (false, c :: rest)

/-- Continue a `digitpart` of Python's float grammar,
`digit (["_"] digit)*`: further digits, optionally separated by single
underscores.  Accumulates the digits read (underscores dropped). -/
def readMoreDigits (acc : List Char) : List Char → List Char × List Char
  | [] => (acc, [])
  | c :: rest =>
    if c.isDigit then readMoreDigits (acc ++ [c]) rest
    else if c = '_' then
      match rest with
      | d :: rest' =>
        if d.isDigit then readMoreDigits (acc ++ [d]) rest' else (acc, c :: rest)
      | [] => (acc, c :: rest)
    else (acc, c :: rest)

/-- A `digitpart` of Python's float grammar: at least one digit, with
optional single underscores between digits. -/
def readDigitPart : List Char → Option (List Char × List Char)
  | [] => none
  | c :: cs => if c.isDigit then some (readMoreDigits [c] cs) else none

/-- Numeric value of a digit string. -/
def digitsToNat (ds : List Char) : ℕ :=
  ds.foldl (fun a c => a * 10 + (c.toNat - '0'.toNat)) 0

/-- The rational `10 ^ n`. -/
def pow10 (n : ℕ) : ℚ :=
  ((10 ^ n : ℕ) : ℚ)

/-- Value of an integer part `ip` together with a fractional part `fp`. -/
def decimalValue (ip fp : List Char) : ℚ :=
  (digitsToNat ip : ℚ) + (digitsToNat fp : ℚ) / pow10 fp.length

/-- Scale a value by `10 ^ e` for an integer exponent `e`. -/
def applyExponent (q : ℚ) (e : ℤ) : ℚ :=
  if 0 ≤ e then q * pow10 e.toNat else q / pow10 (-e).toNat

/-- The `number` production of Python's float grammar:
`[digitpart] "." digitpart | digitpart ["."]`. -/
def readNumber (cs : List Char) : Option (ℚ × List Char) :=
  match readDigitPart cs with
  | some (ip, rest) =>
    match rest with
    | [] => some ((digitsToNat ip : ℚ), [])
    | c :: rest2 =>
      if c = '.' then
        match readDigitPart rest2 with
        | some (fp, rest3) => some (decimalValue ip fp, rest3)
        | none => some ((digitsToNat ip : ℚ), rest2)
      else some ((digitsToNat ip : ℚ), c :: rest2)
  | none =>
    match cs with
    | [] => none
    | c :: rest2 =>
      if c = '.' then
        match readDigitPart rest2 with
        | some (fp, rest3) => some (decimalValue [] fp, rest3)
        | none => none
      else none

/-- The optional `exponent` production `("e" | "E") [sign] digitpart`; when
the tail does not start a well-formed exponent nothing is consumed. -/
def readExponent : List Char → ℤ × List Char
  | [] => (0, [])
  | c :: rest =>
    if c = 'e' || c = 'E' then
      let (neg, rest1) := readSign rest
      match readDigitPart rest1 with
      | some (ds, rest2) =>
        ((if neg then -(digitsToNat ds : ℤ) else (digitsToNat ds : ℤ)), rest2)
      | none => (0, c :: rest)
    else (0, c :: rest)

/-- An unsigned `floatnumber` (`number [exponent]`), which must consume the
whole input. -/
def pyfloatUnsigned (cs : List Char) : Option ℚ :=
  match readNumber cs with
  | some (q, rest) =>
    let (e, rest2) := readExponent rest
    if rest2 = [] then some (applyExponent q e) else none
  | none => none

/-- Python's `float(str)` on a whitespace-free string: an optional sign
followed by either a float number or one of the case-insensitive special
forms `inf`/`infinity`/`nan`.  (The grammar alternatives are disjoint, so
they may be tried in any order.) -/
def pyfloatOfChars (cs : List Char) : Option PyFloat :=
  let (neg, cs1) := readSign cs
  match pyfloatUnsigned cs1 with
  | some q => some (.finite (if neg then -q else q))
  | none =>
    let low := cs1.map Char.toLower
    if low = [ 'i', 'n', 'f' ] || low = [ 'i', 'n', 'f', 'i', 'n', 'i', 't', 'y' ] then
      some (if neg then .ninf else .inf)
    else if low = [ 'n', 'a', 'n' ] then some .nan
    else none

/-- `BaseExtractor._parse_price` (`src/extractors/base.py` lines 105-124):
falsy (empty) input yields `None`; otherwise currency symbols, commas and
whitespace are removed and the result is passed to `float()`, with a
`ValueError` (modelled by `none`) caught and turned into `None`. -/
def _parse_price (s : String) : Option PyFloat :=
  if s.data = [] then none
  else pyfloatOfChars (stripPriceChars s.data)

/-- Modelled from the spec's words "a valid decimal number": the tail of an
exponent part, `("e"|"E") [sign] digit+`, or nothing. -/
def validExponentTail (cs : List Char) : Bool :=
  match cs with
  | [] => true
  | c :: rest =>
    if c = 'e' || c = 'E' then
      let (_, rest1) := readSign rest
      !rest1.isEmpty && rest1.all Char.isDigit
    else false

/-- Modelled from the spec's words "a valid decimal number", after the sign:
digits with an optional dot and fractional digits (at least one digit in
total), optionally followed by an exponent part.  Underscore separators and
the special forms `inf`/`nan` are not decimal numerals. -/
def validUnsignedDecimal (cs : List Char) : Bool :=
  let ip := cs.takeWhile Char.isDigit
  let rest := cs.dropWhile Char.isDigit
  if rest.isEmpty then !ip.isEmpty
  else if rest.head? = some '.' then
    let rest2 := rest.tail
    let fp := rest2.takeWhile Char.isDigit
    let rest3 := rest2.dropWhile Char.isDigit
    (!ip.isEmpty || !fp.isEmpty) && validExponentTail rest3
  else !ip.isEmpty && validExponentTail rest

/-- Modelled from the spec's words: a valid decimal number is an optional
sign followed by an unsigned decimal numeral. -/
def isValidDecimalNumeral (s : String) : Bool :=
  validUnsignedDecimal (readSign s.data).2

theorem dropWhile_head_false (p : Char → Bool) (l : List Char) (c : Char) (rest : List Char)
    (h : l.dropWhile p = c :: rest) : p c = false := by
  induction l with
  | nil => simp at h
  | cons a l ih =>
    rw [List.dropWhile_cons] at h
    by_cases hpa : p a = true
    · rw [if_pos hpa] at h
      exact ih h
    · rw [if_neg hpa] at h
      injection h with h1 _
      subst h1
      simpa using hpa

theorem dropWhile_of_takeWhile_nil (p : Char → Bool) (l : List Char)
    (h : l.takeWhile p = []) : l.dropWhile p = l := by
  cases l with
  | nil => simp
  | cons a l =>
    rw [List.takeWhile_cons] at h
    by_cases hpa : p a = true
    · rw [if_pos hpa] at h
      simp at h
    · rw [List.dropWhile_cons, if_neg hpa]

/-- `readMoreDigits` consumes exactly a plain digit block when the remainder
starts with neither a digit nor an underscore. -/
theorem readMoreDigits_digits (ds : List Char) :
    ∀ (acc rest : List Char), (∀ c ∈ ds, c.isDigit = true) →
    (∀ c l', rest = c :: l' → c.isDigit = false ∧ c ≠ '_') →
    readMoreDigits acc (ds ++ rest) = (acc ++ ds, rest) := by
  induction ds with
  | nil =>
    intro acc rest _ hrest
    cases rest with
    | nil => simp [readMoreDigits]
    | cons c l' =>
      obtain ⟨hc1, hc2⟩ := hrest c l' rfl
      rw [List.nil_append, readMoreDigits.eq_def]
      simp [hc1, hc2]
  | cons d ds ih =>
    intro acc rest hds hrest
    have hd : d.isDigit = true := hds d (by simp)
    rw [List.cons_append, readMoreDigits.eq_def]
    simp only [hd, if_true]
    rw [ih (acc ++ [d]) rest (fun c hc => hds c (by simp [hc])) hrest]
    simp

/-- `readDigitPart` consumes exactly a nonempty plain digit block when the
remainder starts with neither a digit nor an underscore. -/
theorem readDigitPart_digits (ds rest : List Char) (hne : ds ≠ [])
    (hds : ∀ c ∈ ds, c.isDigit = true)
    (hrest : ∀ c l', rest = c :: l' → c.isDigit = false ∧ c ≠ '_') :
    readDigitPart (ds ++ rest) = some (ds, rest) := by
  cases ds with
  | nil => exact absurd rfl hne
  | cons d ds =>
    have hd : d.isDigit = true := hds d (by simp)
    rw [List.cons_append, readDigitPart, if_pos hd,
      readMoreDigits_digits ds [d] rest (fun c hc => hds c (by simp [hc])) hrest]
    simp

/-- A valid exponent tail starts with `e`/`E` (or is empty), hence never with
a digit or an underscore. -/
theorem validExponentTail_head (r : List Char) (h : validExponentTail r = true) :
    ∀ c l', r = c :: l' → c.isDigit = false ∧ c ≠ '_' := by
  intro c l' hr
  subst hr
  rw [validExponentTail] at h
  by_cases hc : (c = 'e' || c = 'E') = true
  · rcases Bool.or_eq_true_iff.mp hc with hc' | hc' <;>
      simp [decide_eq_true_iff.mp hc']
  · rw [if_neg hc] at h
    exact absurd h (by simp)

/-- A valid exponent tail is consumed entirely by `readExponent`. -/
theorem readExponent_of_validTail (r : List Char) (h : validExponentTail r = true) :
    ∃ e, readExponent r = (e, []) := by
  cases r with
  | nil => exact ⟨0, rfl⟩
  | cons c rest =>
    rw [validExponentTail] at h
    by_cases hc : (c = 'e' || c = 'E') = true
    · rw [if_pos hc] at h
      rcases hrs : readSign rest with ⟨sgn, rst⟩
      rw [hrs] at h
      simp only at h
      obtain ⟨hne, hall⟩ := Bool.and_eq_true_iff.mp h
      have hd : readDigitPart rst = some (rst, []) := by
        have h2 := readDigitPart_digits rst []
          (by
            intro he
            rw [he] at hne
            simp at hne)
          (fun c hc' => List.all_eq_true.mp hall c hc')
          (by intro c l' hcl; simp at hcl)
        simpa using h2
      rw [readExponent, if_pos hc, hrs]
      simp only [hd]
      exact ⟨_, rfl⟩
    · rw [if_neg hc] at h
      exact absurd h (by simp)

theorem readDigitPart_none (l : List Char) (h : l.takeWhile Char.isDigit = []) :
    readDigitPart l = none := by
  cases l with
  | nil => rfl
  | cons a l =>
    rw [List.takeWhile_cons] at h
    by_cases hpa : a.isDigit = true
    · rw [if_pos hpa] at h
      simp at h
    · rw [readDigitPart, if_neg hpa]

/-- Every string accepted by the spec's decimal-numeral grammar (after the
sign) is accepted by the embedded float parser. -/
theorem pyfloatUnsigned_of_valid (cs : List Char) (h : validUnsignedDecimal cs = true) :
    ∃ q, pyfloatUnsigned cs = some q := by
  have hsplit : cs.takeWhile Char.isDigit ++ cs.dropWhile Char.isDigit = cs :=
    List.takeWhile_append_dropWhile Char.isDigit cs
  have hip : ∀ c ∈ cs.takeWhile Char.isDigit, c.isDigit = true :=
    fun c hc => List.mem_takeWhile_imp hc
  rw [validUnsignedDecimal] at h
  cases hdw : cs.dropWhile Char.isDigit with
  | nil =>
    rw [hdw] at h hsplit
    simp only [List.isEmpty_nil, if_true] at h
    have hcseq : cs.takeWhile Char.isDigit = cs := by simpa using hsplit
    have hne : cs ≠ [] := by
      intro he
      rw [hcseq, he] at h
      simp at h
    have hall : ∀ c ∈ cs, c.isDigit = true := by
      rw [← hcseq]
      exact hip
    have hrd : readDigitPart cs = some (cs, []) := by
      have h2 := readDigitPart_digits cs [] hne hall
        (by intro c l' hcl; simp at hcl)
      simpa using h2
    refine ⟨applyExponent (digitsToNat cs : ℚ) 0, ?_⟩
    simp [pyfloatUnsigned, readNumber, hrd, readExponent]
  | cons c rest2 =>
    rw [hdw] at h hsplit
    simp only [List.isEmpty_cons, Bool.false_eq_true, if_false, List.head?_cons,
      List.tail_cons] at h
    by_cases hc : c = '.'
    · subst hc
      rw [if_pos rfl] at h
      obtain ⟨hor, hexp⟩ := Bool.and_eq_true_iff.mp h
      have hfpsplit : rest2.takeWhile Char.isDigit ++ rest2.dropWhile Char.isDigit = rest2 :=
        List.takeWhile_append_dropWhile Char.isDigit rest2
      by_cases htake : cs.takeWhile Char.isDigit = []
      · -- no integer part: cs = '.' :: rest2, the fraction digits are nonempty
        have hfpne : rest2.takeWhile Char.isDigit ≠ [] := by
          intro he
          rw [htake, he] at hor
          simp at hor
        have hcs : cs = '.' :: rest2 := by
          rw [htake] at hsplit
          simpa using hsplit.symm
        have hrd2 : readDigitPart rest2
            = some (rest2.takeWhile Char.isDigit, rest2.dropWhile Char.isDigit) := by
          have h2 := readDigitPart_digits (rest2.takeWhile Char.isDigit)
            (rest2.dropWhile Char.isDigit) hfpne (fun c hc => List.mem_takeWhile_imp hc)
            (fun c l' hcl => validExponentTail_head _ hexp c l' hcl)
          rwa [hfpsplit] at h2
        obtain ⟨e, he⟩ := readExponent_of_validTail _ hexp
        refine ⟨applyExponent (decimalValue [] (rest2.takeWhile Char.isDigit)) e, ?_⟩
        have hrdcs : readDigitPart ('.' :: rest2) = none := rfl
        rw [hcs]
        simp [pyfloatUnsigned, readNumber, hrdcs, hrd2, he]
      · -- nonempty integer part
        have hrd : readDigitPart cs = some (cs.takeWhile Char.isDigit, '.' :: rest2) := by
          have h2 := readDigitPart_digits (cs.takeWhile Char.isDigit) ('.' :: rest2) htake hip
            (by
              intro c l' hcl
              injection hcl with h1 h2
              subst h1
              exact ⟨by decide, by decide⟩)
          rwa [hsplit] at h2
        by_cases hfp : rest2.takeWhile Char.isDigit = []
        · -- "digits." with no fraction: the dot is consumed, exponent may follow
          have hrest3 : rest2.dropWhile Char.isDigit = rest2 :=
            dropWhile_of_takeWhile_nil Char.isDigit rest2 hfp
          rw [hrest3] at hexp
          have hrd2 : readDigitPart rest2 = none := readDigitPart_none rest2 hfp
          obtain ⟨e, he⟩ := readExponent_of_validTail _ hexp
          refine ⟨applyExponent (digitsToNat (cs.takeWhile Char.isDigit) : ℚ) e, ?_⟩
          simp [pyfloatUnsigned, readNumber, hrd, hrd2, he]
        · -- digits, dot, fraction digits
          have hrd2 : readDigitPart rest2
              = some (rest2.takeWhile Char.isDigit, rest2.dropWhile Char.isDigit) := by
            have h2 := readDigitPart_digits (rest2.takeWhile Char.isDigit)
              (rest2.dropWhile Char.isDigit) hfp (fun c hc => List.mem_takeWhile_imp hc)
              (fun c l' hcl => validExponentTail_head _ hexp c l' hcl)
            rwa [hfpsplit] at h2
          obtain ⟨e, he⟩ := readExponent_of_validTail _ hexp
          refine ⟨applyExponent
            (decimalValue (cs.takeWhile Char.isDigit) (rest2.takeWhile Char.isDigit)) e, ?_⟩
          simp [pyfloatUnsigned, readNumber, hrd, hrd2, he]
    · rw [if_neg (by simpa using hc)] at h
      obtain ⟨htake, hexp⟩ := Bool.and_eq_true_iff.mp h
      have htake' : cs.takeWhile Char.isDigit ≠ [] := by
        intro he
        rw [he] at htake
        simp at htake
      have hchead := validExponentTail_head _ hexp c rest2 rfl
      have hrd : readDigitPart cs = some (cs.takeWhile Char.isDigit, c :: rest2) := by
        have h2 := readDigitPart_digits (cs.takeWhile Char.isDigit) (c :: rest2) htake' hip
          (by
            intro c' l' hcl
            injection hcl with h1 h2
            subst h1
            exact hchead)
        rwa [hsplit] at h2
      obtain ⟨e, he⟩ := readExponent_of_validTail _ hexp
      refine ⟨applyExponent (digitsToNat (cs.takeWhile Char.isDigit) : ℚ) e, ?_⟩
      simp [pyfloatUnsigned, readNumber, hrd, hc, he]

/-- Claim C1, counterexample: the claim says `_parse_price` returns `null`
for every string that does not reduce to a valid decimal number after symbol
stripping.  The string `"inf"` is not a valid decimal numeral, yet
`float("inf")` accepts it, so `_parse_price("inf")` returns the float
infinity rather than `None`. -/
theorem c1_price_parser_counterexample :
    isValidDecimalNumeral (stripPrice "inf") = false
      ∧ _parse_price "inf" = some PyFloat.inf := by
  exact ⟨by decide, by decide⟩

/-- Claim C1 (amended): `_parse_price` strips currency symbols (`$`, `€`,
`£`, `¥`), commas and whitespace; it returns the value of every stripped
string that is a valid decimal numeral, and the examples behave as claimed
(`"$12.34"` ↦ `12.34`, `"€12,345.00"` ↦ `12345.0`, `"N/A"` and `""` ↦
`None`); but beyond decimal numerals it also accepts the forms admitted by
Python's `float()` grammar, e.g. `"inf"` ↦ infinity, so invalid-decimal
strings are not always mapped to `None`.  It never raises (it is total). -/
theorem c1_price_parser_amended :
    (∀ s : String, isValidDecimalNumeral (stripPrice s) = true →
        ∃ q : ℚ, _parse_price s = some (PyFloat.finite q))
      ∧ _parse_price "$12.34" = some (PyFloat.finite (617 / 50))
      ∧ _parse_price "€12,345.00" = some (PyFloat.finite 12345)
      ∧ _parse_price "N/A" = none
      ∧ _parse_price "" = none
      ∧ _parse_price "inf" = some PyFloat.inf := by
  refine ⟨?_, ?_, ?_, by decide, by decide, by decide⟩
  · intro s h
    by_cases hs : s.data = []
    · rw [show stripPrice s = String.mk [] by simp [stripPrice, stripPriceChars, hs]] at h
      exact absurd h (by decide)
    · rw [_parse_price, if_neg hs]
      have h' : validUnsignedDecimal (readSign (stripPriceChars s.data)).2 = true := h
      rcases hrs : readSign (stripPriceChars s.data) with ⟨neg, cs1⟩
      rw [hrs] at h'
      simp only at h'
      obtain ⟨q, hq⟩ := pyfloatUnsigned_of_valid cs1 h'
      refine ⟨if neg then -q else q, ?_⟩
      rw [pyfloatOfChars, hrs]
      simp only [hq]
  · have h : _parse_price "$12.34"
        = some (PyFloat.finite (applyExponent (decimalValue ['1', '2'] ['3', '4']) 0)) := rfl
    have d1 : digitsToNat ['1', '2'] = 12 := by decide
    have d2 : digitsToNat ['3', '4'] = 34 := by decide
    rw [h]
    norm_num [decimalValue, applyExponent, pow10, d1, d2]
  · have h : _parse_price "€12,345.00"
        = some (PyFloat.finite
            (applyExponent (decimalValue ['1', '2', '3', '4', '5'] ['0', '0']) 0)) := rfl
    have d1 : digitsToNat ['1', '2', '3', '4', '5'] = 12345 := by decide
    have d2 : digitsToNat ['0', '0'] = 0 := by decide
    rw [h]
    norm_num [decimalValue, applyExponent, pow10, d1, d2]

/-- Witness for C1: a concrete valid decimal price string is parsed to a
finite value. -/
theorem c1_price_parser_witness :
    ∃ q : ℚ, _parse_price "12.5" = some (PyFloat.finite q) :=
  c1_price_parser_amended.1 "12.5" (by decide)

/-! ### Persistence layer (`src/database.py`) -/

/-- A row of the `items` table. -/
structure ItemRow where
  id : ℕ
  url : String
  name : String
  brand : Option String
  category : Option String
  scrape_frequency : String
  created_at : ℕ
deriving DecidableEq, Repr

/-- A row of the `price_history` table; `sizes_available` holds the raw
stored TEXT column (a JSON string) or NULL. -/
structure PriceRow where
  id : ℕ
  item_id : ℕ
  scraped_at : ℕ
  colorway_name : Option String
  listed_price : Option ℚ
  sale_price : Option ℚ
  sizes_available : Option String
  screenshot_url : Option String
deriving DecidableEq, Repr

/-- A row of the `scrape_logs` table (`success` is stored as 1/0). -/
structure LogRow where
  id : ℕ
  item_id : Option ℕ
  scraped_at : ℕ
  success : Bool
  error_message : Option String
deriving DecidableEq, Repr

/-- The SQLite database state.  The `AUTOINCREMENT` counters start at 1.
`now` models `CURRENT_TIMESTAMP` as a strictly increasing clock: each write
is stamped with a fresh instant, so `ORDER BY scraped_at DESC` never has to
break a tie between distinct rows. -/
structure DB where
  items : List ItemRow
  price_history : List PriceRow
  scrape_logs : List LogRow
  nextItemId : ℕ
  nextPriceId : ℕ
  nextLogId : ℕ
  now : ℕ
deriving DecidableEq, Repr

/-- A freshly initialized database (`Database._initialize_database`). -/
def DB.init : DB :=
  ⟨[], [], [], 1, 1, 1, 0⟩

/-- `Database.get_item_by_url`: `SELECT * FROM items WHERE url = ?`. -/
def get_item_by_url (db : DB) (url : String) : Option ItemRow :=
  db.items.find? (fun r => r.url = url)

/-- `Database.add_item`: `INSERT INTO items (url, name, brand, category,
scrape_frequency) VALUES (?, ?, ?, ?, ?)`.  The UNIQUE constraint on `url`
raises (is re-raised as `Exception`) when the url already exists. -/
def add_item (db : DB) (url name : String) (brand category : Option String)
    (scrape_frequency : String) : Except String (DB × ℕ) :=
  if db.items.any (fun r => r.url = url) then
    Except.error "Error adding item: UNIQUE constraint failed: items.url"
  else
    Except.ok
      ({ db with
          items := db.items ++
            [⟨db.nextItemId, url, name, brand, category, scrape_frequency, db.now⟩],
          nextItemId := db.nextItemId + 1,
          now := db.now + 1 }, db.nextItemId)

/-- `Database.add_item_if_new` (`src/database.py` lines 176-187): look the
url up; if a row exists return its id, otherwise insert a new row (with the
default `scrape_frequency = 'daily'`). -/
def add_item_if_new (db : DB) (url name : String) (brand category : Option String) :
    Except String (DB × ℕ) :=
  match get_item_by_url db url with
  | some it => Except.ok (db, it.id)
  | none => add_item db url name brand category "daily"

/-- Claim C2: `add_item_if_new` is idempotent.  If a first call for `url`
succeeded with item id `id1` and database state `db1`, a second call with
the same url — and arbitrary, possibly different, name/brand/category
arguments — returns the same id and leaves the database (hence every field
of the existing item row, and the number of rows) completely unchanged. -/
theorem c2_register_if_new_idempotent (db db1 : DB) (id1 : ℕ) (url name name' : String)
    (brand category brand' category' : Option String)
    (h : add_item_if_new db url name brand category = Except.ok (db1, id1)) :
    add_item_if_new db1 url name' brand' category' = Except.ok (db1, id1) := by
  rw [add_item_if_new] at h
  cases hfind : get_item_by_url db url with
  | some it =>
    rw [hfind] at h
    simp only [Except.ok.injEq, Prod.mk.injEq] at h
    obtain ⟨rfl, rfl⟩ := h
    rw [add_item_if_new, hfind]
  | none =>
    rw [hfind, add_item] at h
    have hnone : db.items.find? (fun r => r.url = url) = none := hfind
    have hany : (db.items.any (fun r => r.url = url)) = false := by
      rw [List.any_eq_false]
      rw [List.find?_eq_none] at hnone
      intro r hr
      simpa using hnone r hr
    rw [if_neg (by simp [hany])] at h
    simp only [Except.ok.injEq, Prod.mk.injEq] at h
    obtain ⟨hdb1, hid⟩ := h
    have hfind2 : get_item_by_url db1 url
        = some ⟨db.nextItemId, url, name, brand, category, "daily", db.now⟩ := by
      rw [← hdb1, get_item_by_url]
      show (db.items ++ [_]).find? _ = _
      rw [List.find?_append, hnone]
      simp [List.find?]
    rw [add_item_if_new, hfind2, ← hid]

/-- Witness for C2: registering the same url twice on a fresh database
returns item id 1 twice and does not change the database. -/
theorem c2_register_if_new_witness :
    add_item_if_new
      ⟨[⟨1, "https://example.com/p", "n", none, none, "daily", 0⟩], [], [], 2, 1, 1, 1⟩
      "https://example.com/p" "other" (some "b") (some "c")
      = Except.ok
        (⟨[⟨1, "https://example.com/p", "n", none, none, "daily", 0⟩], [], [], 2, 1, 1, 1⟩, 1) :=
  c2_register_if_new_idempotent DB.init _ 1 "https://example.com/p" "n" "other"
    none none (some "b") (some "c") rfl

/-! ### JSON (Python `json` module)

`json.loads` / `json.dumps` as used by `parse_llm_response`
(`src/extractors/base.py`) and by the `sizes_available` column
(`src/database.py`).  JSON objects are association lists with unique keys in
insertion order, matching Python dicts (a duplicate key in the source text
overwrites the value of the existing entry in place).  Numbers carry a
`PyFloat` so that `normalize_data` can store parsed price floats in the same
dictionary; `json.loads` itself only produces finite numbers.  `\uXXXX`
escapes are decoded as single code points (surrogate-pair recombination is
not modelled; the encoder below never produces surrogates). -/

/-- A Python JSON value. -/
inductive JVal where
  | null
  | bool (b : Bool)
  | num (v : PyFloat)
  | str (s : String)
  | arr (xs : List JVal)
  | obj (fields : List (String × JVal))
deriving Repr

/-- Python dict insertion: overwrite in place when the key exists (keeping
its position), otherwise append. -/
def objInsert (fields : List (String × JVal)) (k : String) (v : JVal) :
    List (String × JVal) :=
  if fields.any (fun p => p.1 = k) then
    fields.map (fun p => if p.1 = k then (k, v) else p)
  else fields ++ [(k, v)]

/-- Python dict lookup on an association list. -/
def lookupField (fields : List (String × JVal)) (k : String) : Option JVal :=
  (fields.find? (fun p => p.1 = k)).map (fun p => p.2)

/-- `data.get(k)` on a JSON value (`None` when not a dict or key absent). -/
def jsonLookup : JVal → String → Option JVal
  | .obj fields, k => lookupField fields k
  | _, _ => none

/-- JSON whitespace. -/
def isJsonWs (c : Char) : Bool :=
  c = ' ' || c = '\t' || c = '\n' || c = '\x0d'

/-- Skip JSON whitespace. -/
def skipJsonWs (cs : List Char) : List Char :=
  cs.dropWhile isJsonWs

/-- Value of a hexadecimal digit. -/
def hexVal (c : Char) : Option ℕ :=
  if c.isDigit then some (c.toNat - '0'.toNat)
  else if 'a' ≤ c ∧ c ≤ 'f' then some (c.toNat - 'a'.toNat + 10)
  else if 'A' ≤ c ∧ c ≤ 'F' then some (c.toNat - 'A'.toNat + 10)
  else none

/-- Decode a single-character JSON escape. -/
def escDecode (e : Char) : Option Char :=
  if e = '"' then some '"'
  else if e = '\\' then some '\\'
  else if e = '/' then some '/'
  else if e = 'b' then some '\x08'
  else if e = 'f' then some '\x0c'
  else if e = 'n' then some '\n'
  else if e = 'r' then some '\x0d'
  else if e = 't' then some '\t'
  else none

/-- Parse the body of a JSON string (after the opening quote), returning the
decoded characters and the input after the closing quote. -/
def parseStrBody : List Char → Option (List Char × List Char)
  | [] => none
  | c :: rest =>
    if c = '"' then some ([], rest)
    else if c = '\\' then
      match rest with
      | [] => none
      | e :: rest2 =>
        if e = 'u' then
          match rest2 with
          | h1 :: h2 :: h3 :: h4 :: rest3 =>
            match hexVal h1, hexVal h2, hexVal h3, hexVal h4 with
            | some a, some b, some c', some d =>
              (parseStrBody rest3).map (fun p =>
                (Char.ofNat (((a * 16 + b) * 16 + c') * 16 + d) :: p.1, p.2))
            | _, _, _, _ => none
          | _ => none
        else
          match escDecode e with
          | some c' => (parseStrBody rest2).map (fun p => (c' :: p.1, p.2))
          | none => none
    else (parseStrBody rest).map (fun p => (c :: p.1, p.2))

/-- Parse the optional exponent of a JSON number and apply it. -/
def parseJsonExpPart (q : ℚ) (cs : List Char) : Option (ℚ × List Char) :=
  match cs with
  | [] => some (q, [])
  | c :: rest =>
    if c = 'e' || c = 'E' then
      let sr : Bool × List Char :=
        match rest with
        | [] => (false, [])
        | d :: rest2 =>
          if d = '+' then (false, rest2)
          else if d = '-' then (true, rest2)
          else (false, rest)
      let ds := sr.2.takeWhile Char.isDigit
      let r2 := sr.2.dropWhile Char.isDigit
      if ds.isEmpty then none
      else
        some (applyExponent q (if sr.1 then -(digitsToNat ds : ℤ) else (digitsToNat ds : ℤ)), r2)
    else some (q, cs)

/-- Parse a JSON number after the optional minus sign: an integer part
without leading zeros, an optional fraction, an optional exponent. -/
def parseJsonNumberBody (cs : List Char) : Option (ℚ × List Char) :=
  let ip := cs.takeWhile Char.isDigit
  let r1 := cs.dropWhile Char.isDigit
  if ip.isEmpty then none
  else if 1 < ip.length ∧ ip.head? = some '0' then none
  else if r1.head? = some '.' then
    let fp := r1.tail.takeWhile Char.isDigit
    let r3 := r1.tail.dropWhile Char.isDigit
    if fp.isEmpty then none
    else parseJsonExpPart (decimalValue ip fp) r3
  else parseJsonExpPart (digitsToNat ip : ℚ) r1

/-- Parse a JSON number. -/
def parseJsonNumber (cs : List Char) : Option (ℚ × List Char) :=
  match cs with
  | [] => none
  | c :: rest =>
    if c = '-' then (parseJsonNumberBody rest).map (fun p => (-p.1, p.2))
    else parseJsonNumberBody cs

mutual

/-- Fueled JSON value parser (the core of `json.loads`).  The fuel strictly
decreases on every nested call; `json_loads` supplies more fuel than any
input can consume. -/
def parseJsonVal : ℕ → List Char → Option (JVal × List Char)
  | 0, _ => none
  | fuel + 1, cs =>
    match skipJsonWs cs with
    | [] => none
    | c :: rest =>
      if c = '"' then (parseStrBody rest).map (fun p => (JVal.str (String.mk p.1), p.2))
      else if c = '[' then
        let rest1 := skipJsonWs rest
        if rest1.head? = some ']' then some (JVal.arr [], rest1.tail)
        else (parseJsonItems fuel rest1).map (fun p => (JVal.arr p.1, p.2))
      else if c = '\x7b' then
        let rest1 := skipJsonWs rest
        if rest1.head? = some '\x7d' then some (JVal.obj [], rest1.tail)
        else (parseJsonMembers fuel [] rest1).map (fun p => (JVal.obj p.1, p.2))
      else if c = 't' then
        if rest.take 3 = ['r', 'u', 'e'] then some (JVal.bool true, rest.drop 3) else none
      else if c = 'f' then
        if rest.take 4 = ['a', 'l', 's', 'e'] then some (JVal.bool false, rest.drop 4) else none
      else if c = 'n' then
        if rest.take 3 = ['u', 'l', 'l'] then some (JVal.null, rest.drop 3) else none
      else (parseJsonNumber (c :: rest)).map (fun p => (JVal.num (PyFloat.finite p.1), p.2))
termination_by structural fuel _ => fuel

/-- Parse one or more comma-separated array items (position: at the first
item, which is not `]`). -/
def parseJsonItems : ℕ → List Char → Option (List JVal × List Char)
  | 0, _ => none
  | fuel + 1, cs =>
    match parseJsonVal fuel cs with
    | none => none
    | some (v, r) =>
      let r1 := skipJsonWs r
      if r1.head? = some ']' then some ([v], r1.tail)
      else if r1.head? = some ',' then
        (parseJsonItems fuel r1.tail).map (fun p => (v :: p.1, p.2))
      else none
termination_by structural fuel _ => fuel

/-- Parse one or more comma-separated object members into a dict. -/
def parseJsonMembers : ℕ → List (String × JVal) → List Char →
    Option (List (String × JVal) × List Char)
  | 0, _, _ => none
  | fuel + 1, acc, cs =>
    match skipJsonWs cs with
    | c :: rest =>
      if c = '"' then
        match parseStrBody rest with
        | none => none
        | some (k, r1) =>
          match skipJsonWs r1 with
          | c2 :: r2 =>
            if c2 = ':' then
              match parseJsonVal fuel r2 with
              | none => none
              | some (v, r3) =>
                let acc1 := objInsert acc (String.mk k) v
                let r4 := skipJsonWs r3
                if r4.head? = some '\x7d' then some (acc1, r4.tail)
                else if r4.head? = some ',' then parseJsonMembers fuel acc1 r4.tail
                else none
            else none
          | [] => none
      else none
    | [] => none
termination_by structural fuel _ _ => fuel

end

/-- `json.loads`: parse one JSON value, requiring only whitespace after it. -/
def json_loads (s : String) : Option JVal :=
  match parseJsonVal (s.data.length + 1) s.data with
  | some (v, rest) => if (skipJsonWs rest).isEmpty then some v else none
  | none => none

/-- Lowercase hexadecimal digit. -/
def hexDigit (n : ℕ) : Char :=
  if n < 10 then Char.ofNat ('0'.toNat + n) else Char.ofNat ('a'.toNat + n - 10)

/-- JSON encoding of one character (`json.dumps` escaping rules for the
characters that need escaping; other characters are kept literally). -/
def escapeChar (c : Char) : List Char :=
  if c = '"' then ['\\', '"']
  else if c = '\\' then ['\\', '\\']
  else if c = '\n' then ['\\', 'n']
  else if c = '\t' then ['\\', 't']
  else if c = '\x0d' then ['\\', 'r']
  else if c = '\x08' then ['\\', 'b']
  else if c = '\x0c' then ['\\', 'f']
  else if c.toNat < 32 then
    ['\\', 'u', '0', '0', hexDigit (c.toNat / 16), hexDigit (c.toNat % 16)]
  else [c]

/-- The escaped body of a JSON string, followed by `tail`. -/
def encStrBody (cs : List Char) (tail : List Char) : List Char :=
  cs.foldr (fun c acc => escapeChar c ++ acc) tail

/-- `json.dumps` of a string. -/
def encodeJsonString (s : String) : List Char :=
  '"' :: encStrBody s.data ['"']

/-- The items of a dumped list after the first one: `", "` separators, then
the closing bracket (`json.dumps` default separators). -/
def encodeItemsTail : List String → List Char
  | [] => [']']
  | x :: xs => ',' :: ' ' :: (encodeJsonString x ++ encodeItemsTail xs)

/-- `json.dumps` of a list of strings (default separators). -/
def json_dumps_strList (l : List String) : String :=
  match l with
  | [] => "[]"
  | x :: xs => String.mk ('[' :: (encodeJsonString x ++ encodeItemsTail xs))

/-! ### Response normalizer (`src/extractors/base.py`) -/

/-- Python truthiness of a JSON value. -/
def jTruthy : JVal → Bool
  | .null => false
  | .bool b => b
  | .num (.finite q) => decide (q ≠ 0)
  | .num _ => true
  | .str s => !s.isEmpty
  | .arr xs => !xs.isEmpty
  | .obj fs => !fs.isEmpty

/-- The dictionary value written for a parsed price (`None` becomes the JSON
null, a float stays a float). -/
def pyFloatToJVal : Option PyFloat → JVal
  | none => .null
  | some f => .num f

/-- `data[k] = v` for a key that is already present (the only way
`normalize_data` assigns): the value is overwritten in place. -/
def updateField (fields : List (String × JVal)) (k : String) (v : JVal) :
    List (String × JVal) :=
  fields.map (fun p => if p.1 = k then (k, v) else p)

/-- One price-field step of `normalize_data`: when key `k` is present and
its value is a string, replace it by `_parse_price` of that string. -/
def normalizePriceField (fields : List (String × JVal)) (k : String) :
    List (String × JVal) :=
  match lookupField fields k with
  | some (.str s) => updateField fields k (pyFloatToJVal (_parse_price s))
  | _ => fields

/-- The `sizes_available` step of `normalize_data`: when present and not a
list, a truthy value is wrapped into a one-element list and a falsy value
becomes `[]`; a list is left untouched. -/
def normalizeSizes (fields : List (String × JVal)) : List (String × JVal) :=
  match lookupField fields "sizes_available" with
  | some (.arr _) => fields
  | some v =>
    updateField fields "sizes_available" (if jTruthy v then .arr [v] else .arr [])
  | none => fields

/-- `BaseExtractor.normalize_data` (`src/extractors/base.py` lines 79-103).
On a non-dict value the three `in data` membership tests are false for these
keys, so the value passes through unchanged. -/
def normalize_data : JVal → JVal
  | .obj fields =>
    .obj (normalizeSizes
      (normalizePriceField (normalizePriceField fields "listed_price") "sale_price"))
  | v => v

theorem dropWhile_length_le (p : Char → Bool) (l : List Char) :
    (l.dropWhile p).length ≤ l.length := by
  induction l with
  | nil => simp
  | cons a l ih =>
    rw [List.dropWhile_cons]
    by_cases h : p a = true
    · rw [if_pos h]
      exact Nat.le_succ_of_le ih
    · rw [if_neg h]

/-- Fueled worker for `subJsonFence`; every step consumes at least one
character, so fuel equal to the input length never runs out. -/
def subJsonFenceAux : ℕ → List Char → List Char
  | 0, cs => cs
  | _ + 1, [] => []
  | fuel + 1, c :: rest =>
    if "```json".data.isPrefixOf (c :: rest) then
      subJsonFenceAux fuel (((c :: rest).drop 7).dropWhile isPySpace)
    else c :: subJsonFenceAux fuel rest

/-- `re.sub(r'```json\s*', '', s)`: remove every occurrence of three
backticks followed by `json` and any following whitespace. -/
def subJsonFence (cs : List Char) : List Char :=
  subJsonFenceAux cs.length cs

/-- `re.sub(r'```\s*$', '', s)` (no MULTILINE): remove the leftmost three
backticks that are followed only by whitespace up to the end of the string
(the greedy `\s*` swallows that whitespace, `$` matches at the very end). -/
def subTrailingFence : List Char → List Char
  | [] => []
  | c :: rest =>
    if "```".data.isPrefixOf (c :: rest) && ((c :: rest).drop 3).all isPySpace then []
    else c :: subTrailingFence rest

/-- Python `str.strip()`. -/
def pyStrip (cs : List Char) : List Char :=
  ((cs.dropWhile isPySpace).reverse.dropWhile isPySpace).reverse

/-- `re.search(r'\x7b.*\x7d', s, re.DOTALL)`: the span from the first
opening brace to the last closing brace, when the latter comes after the
former. -/
def braceSpan (cs : List Char) : Option (List Char) :=
  match cs.findIdx? (fun c => c = '\x7b'), cs.reverse.findIdx? (fun c => c = '\x7d') with
  | some i, some jr =>
    let j := cs.length - 1 - jr
    if i < j then some ((cs.take (j + 1)).drop i) else none
  | _, _ => none

/-- `BaseExtractor.parse_llm_response` (`src/extractors/base.py` lines
45-77): strip markdown code fences, strip whitespace, try `json.loads`; on
failure retry on the first-brace-to-last-brace span; otherwise raise
`ValueError`. -/
def parse_llm_response (s : String) : Except String JVal :=
  let cs := pyStrip (subTrailingFence (subJsonFence s.data))
  match json_loads (String.mk cs) with
  | some v => Except.ok (normalize_data v)
  | none =>
    match braceSpan cs with
    | some sub =>
      match json_loads (String.mk sub) with
      | some v => Except.ok (normalize_data v)
      | none =>
        Except.error ("Could not parse LLM response as JSON: " ++ String.mk (cs.take 200))
    | none =>
      Except.error ("Could not parse LLM response as JSON: " ++ String.mk (cs.take 200))

theorem lookupField_updateField_ne (fields : List (String × JVal)) (k k' : String)
    (v : JVal) (h : k ≠ k') :
    lookupField (updateField fields k' v) k = lookupField fields k := by
  induction fields with
  | nil => rfl
  | cons p ps ih =>
    rw [updateField, List.map_cons]
    by_cases hp : p.1 = k'
    · rw [if_pos hp]
      rw [lookupField, List.find?_cons_of_neg _ (by simp [Ne.symm h])]
      rw [lookupField, List.find?_cons_of_neg _ (by simp [hp, Ne.symm h])]
      exact ih
    · rw [if_neg hp]
      by_cases hk : p.1 = k
      · rw [lookupField, List.find?_cons_of_pos _ (by simp [hk])]
        rw [lookupField, List.find?_cons_of_pos _ (by simp [hk])]
      · rw [lookupField, List.find?_cons_of_neg _ (by simp [hk])]
        rw [lookupField, List.find?_cons_of_neg _ (by simp [hk])]
        exact ih

theorem lookupField_updateField_self (fields : List (String × JVal)) (k : String)
    (v w : JVal) (h : lookupField fields k = some w) :
    lookupField (updateField fields k v) k = some v := by
  induction fields with
  | nil => simp [lookupField] at h
  | cons p ps ih =>
    rw [updateField, List.map_cons]
    by_cases hp : p.1 = k
    · rw [if_pos hp]
      rw [lookupField, List.find?_cons_of_pos _ (by simp)]
      rfl
    · rw [if_neg hp]
      rw [lookupField, List.find?_cons_of_neg _ (by simp [hp])]
      rw [lookupField, List.find?_cons_of_neg _ (by simp [hp])] at h
      exact ih h

theorem lookupField_normalizePriceField_ne (fields : List (String × JVal))
    (k k' : String) (h : k ≠ k') :
    lookupField (normalizePriceField fields k') k = lookupField fields k := by
  rw [normalizePriceField]
  cases hl : lookupField fields k' with
  | none => rfl
  | some v =>
    cases v with
    | str s => exact lookupField_updateField_ne fields k k' _ h
    | null => rfl
    | bool b => rfl
    | num f => rfl
    | arr xs => rfl
    | obj fs => rfl

/-- Claim C4, counterexample: on `"name":"X"` wrapped in code fences the
normalizer returns an object containing only `name`; it does not fill the
missing optional fields with defaults — in particular `sizes_available` is
absent (lookup yields nothing), not `[]`. -/
theorem c4_response_normalizer_counterexample :
    parse_llm_response "```json\n\x7b\"name\":\"X\"\x7d\n```"
        = Except.ok (JVal.obj [("name", JVal.str "X")])
      ∧ jsonLookup (JVal.obj [("name", JVal.str "X")]) "sizes_available"
        ≠ some (JVal.arr []) := by
  refine ⟨rfl, ?_⟩
  intro h
  rw [show jsonLookup (JVal.obj [("name", JVal.str "X")]) "sizes_available" = none from rfl] at h
  exact Option.noConfusion h

/-- Claim C4 (amended): the fenced response parses to an object holding
exactly `name = "X"`.  The missing optional fields are left absent rather
than filled: looking them up yields nothing, which Python consumers reading
with `.get` observe as `None` — for `listed_price`, `sale_price`,
`colorway_name` and also for `sizes_available`, for which no `[]` default is
materialized by the normalizer. -/
theorem c4_response_normalizer_amended :
    parse_llm_response "```json\n\x7b\"name\":\"X\"\x7d\n```"
        = Except.ok (JVal.obj [("name", JVal.str "X")])
      ∧ jsonLookup (JVal.obj [("name", JVal.str "X")]) "name" = some (JVal.str "X")
      ∧ jsonLookup (JVal.obj [("name", JVal.str "X")]) "listed_price" = none
      ∧ jsonLookup (JVal.obj [("name", JVal.str "X")]) "sale_price" = none
      ∧ jsonLookup (JVal.obj [("name", JVal.str "X")]) "colorway_name" = none
      ∧ jsonLookup (JVal.obj [("name", JVal.str "X")]) "sizes_available" = none :=
  ⟨rfl, rfl, rfl, rfl, rfl, rfl⟩

/-- Claim C5, counterexample: the pipeline does not deduplicate
`sizes_available`: an extractor response listing `"M"` twice normalizes (and
is then persisted) with the duplicate kept, so the produced record violates
the claimed no-duplicates invariant. -/
theorem c5_sizes_dedup_counterexample :
    parse_llm_response "\x7b\"name\": \"A\", \"sizes_available\": [\"M\", \"M\"]\x7d"
        = Except.ok (JVal.obj [("name", JVal.str "A"),
            ("sizes_available", JVal.arr [JVal.str "M", JVal.str "M"])])
      ∧ ¬ ([JVal.str "M", JVal.str "M"].Nodup) := by
  refine ⟨rfl, ?_⟩
  simp

/-- Claim C5 (amended): `normalize_data` coerces `sizes_available` to a
list but performs no deduplication: a list value is passed through verbatim
(order preserved, duplicates kept), a truthy non-list value becomes a
one-element list, a falsy non-list value becomes `[]`, and an absent key
stays absent. -/
theorem c5_sizes_normalization_amended (fields : List (String × JVal)) :
    (∀ l, lookupField fields "sizes_available" = some (JVal.arr l) →
        jsonLookup (normalize_data (JVal.obj fields)) "sizes_available"
          = some (JVal.arr l))
      ∧ (∀ v, lookupField fields "sizes_available" = some v →
          (∀ l', v ≠ JVal.arr l') →
          jsonLookup (normalize_data (JVal.obj fields)) "sizes_available"
            = some (if jTruthy v then JVal.arr [v] else JVal.arr []))
      ∧ (lookupField fields "sizes_available" = none →
          jsonLookup (normalize_data (JVal.obj fields)) "sizes_available" = none) := by
  have hkeep : lookupField
      (normalizePriceField (normalizePriceField fields "listed_price") "sale_price")
      "sizes_available" = lookupField fields "sizes_available" := by
    rw [lookupField_normalizePriceField_ne _ _ _ (by decide),
      lookupField_normalizePriceField_ne _ _ _ (by decide)]
  refine ⟨?_, ?_, ?_⟩
  · intro l hl
    rw [normalize_data, jsonLookup, normalizeSizes, hkeep, hl]
    rwa [hkeep]
  · intro v hv hne
    rw [normalize_data, jsonLookup, normalizeSizes, hkeep, hv]
    cases v with
    | arr xs => exact absurd rfl (hne xs)
    | null => exact lookupField_updateField_self _ _ _ _ (hkeep.trans hv)
    | bool b => exact lookupField_updateField_self _ _ _ _ (hkeep.trans hv)
    | num f => exact lookupField_updateField_self _ _ _ _ (hkeep.trans hv)
    | str s => exact lookupField_updateField_self _ _ _ _ (hkeep.trans hv)
    | obj fs => exact lookupField_updateField_self _ _ _ _ (hkeep.trans hv)
  · intro hn
    rw [normalize_data, jsonLookup, normalizeSizes, hkeep, hn]
    rwa [hkeep]

/-- Witness for C5: a duplicated size list is passed through verbatim by the
normalizer. -/
theorem c5_sizes_normalization_witness :
    jsonLookup
        (normalize_data (JVal.obj
          [("sizes_available", JVal.arr [JVal.str "M", JVal.str "M"])]))
        "sizes_available"
      = some (JVal.arr [JVal.str "M", JVal.str "M"]) :=
  (c5_sizes_normalization_amended _).1 _ rfl

theorem hexVal_hexDigit (n : ℕ) (h : n < 16) : hexVal (hexDigit n) = some n := by
  interval_cases n <;> decide

theorem encStrBody_append (cs t r : List Char) :
    encStrBody cs t ++ r = encStrBody cs (t ++ r) := by
  induction cs with
  | nil => rfl
  | cons c cs ih =>
    show (escapeChar c ++ encStrBody cs t) ++ r = escapeChar c ++ encStrBody cs (t ++ r)
    rw [List.append_assoc, ih]

theorem parseStrBody_encode (cs rest : List Char) :
    parseStrBody (encStrBody cs ('"' :: rest)) = some (cs, rest) := by
  induction cs with
  | nil =>
    simp only [encStrBody, List.foldr_nil]
    rw [parseStrBody.eq_def]
    simp
  | cons c cs ih =>
    show parseStrBody (escapeChar c ++ encStrBody cs ('"' :: rest)) = _
    rw [escapeChar]
    split_ifs with h1 h2 h3 h4 h5 h6 h7 h8
    · subst h1
      simp only [List.cons_append, List.nil_append]
      rw [parseStrBody.eq_def]
      simp [escDecode, ih]
    · subst h2
      simp only [List.cons_append, List.nil_append]
      rw [parseStrBody.eq_def]
      simp [escDecode, ih]
    · subst h3
      simp only [List.cons_append, List.nil_append]
      rw [parseStrBody.eq_def]
      simp [escDecode, ih]
    · subst h4
      simp only [List.cons_append, List.nil_append]
      rw [parseStrBody.eq_def]
      simp [escDecode, ih]
    · subst h5
      simp only [List.cons_append, List.nil_append]
      rw [parseStrBody.eq_def]
      simp [escDecode, ih]
    · subst h6
      simp only [List.cons_append, List.nil_append]
      rw [parseStrBody.eq_def]
      simp [escDecode, ih]
    · subst h7
      simp only [List.cons_append, List.nil_append]
      rw [parseStrBody.eq_def]
      simp [escDecode, ih]
    · simp only [List.cons_append, List.nil_append]
      rw [parseStrBody.eq_def]
      have hh : hexVal (hexDigit (c.toNat / 16)) = some (c.toNat / 16) :=
        hexVal_hexDigit _ (by omega)
      have hl : hexVal (hexDigit (c.toNat % 16)) = some (c.toNat % 16) :=
        hexVal_hexDigit _ (Nat.mod_lt _ (by norm_num))
      have h0 : hexVal '0' = some 0 := by decide
      have harith : ((0 * 16 + 0) * 16 + c.toNat / 16) * 16 + c.toNat % 16 = c.toNat := by
        omega
      simp [h0, hh, hl, ih]
      rw [show c.toNat / 16 * 16 + c.toNat % 16 = c.toNat from by omega, Char.ofNat_toNat]
    · simp only [List.cons_append, List.nil_append]
      rw [parseStrBody.eq_def]
      simp [h1, h2, ih]


theorem parseJsonVal_str (f : ℕ) (s : String) (tail : List Char) :
    parseJsonVal (f + 1) ('"' :: encStrBody s.data ('"' :: tail))
      = some (JVal.str s, tail) := by
  rw [parseJsonVal]
  rw [show skipJsonWs ('"' :: encStrBody s.data ('"' :: tail))
      = '"' :: encStrBody s.data ('"' :: tail) from by
    rw [skipJsonWs, List.dropWhile_cons, if_neg (by decide)]]
  simp [parseStrBody_encode]

theorem parseJsonVal_cons_space (f : ℕ) (t : List Char) :
    parseJsonVal f (' ' :: t) = parseJsonVal f t := by
  cases f with
  | zero => rfl
  | succ f =>
    conv_lhs => rw [parseJsonVal]
    conv_rhs => rw [parseJsonVal]
    rw [show skipJsonWs (' ' :: t) = skipJsonWs t from by
      simp only [skipJsonWs]
      rw [List.dropWhile_cons, if_pos (by decide)]]

theorem parseJsonItems_cons_space (f : ℕ) (t : List Char) :
    parseJsonItems f (' ' :: t) = parseJsonItems f t := by
  cases f with
  | zero => rfl
  | succ f =>
    conv_lhs => rw [parseJsonItems]
    conv_rhs => rw [parseJsonItems]
    rw [parseJsonVal_cons_space]

theorem parseJsonItems_encode (xs : List String) :
    ∀ (x : String) (r : List Char) (fuel : ℕ), xs.length + 2 ≤ fuel →
    parseJsonItems fuel (encodeJsonString x ++ (encodeItemsTail xs ++ r))
      = some ((x :: xs).map JVal.str, r) := by
  induction xs with
  | nil =>
    intro x r fuel hfuel
    obtain ⟨f, rfl⟩ : ∃ f, fuel = f + 2 := ⟨fuel - 2, by omega⟩
    rw [encodeItemsTail, encodeJsonString]
    rw [show ('"' :: encStrBody x.data ['"']) ++ ([']'] ++ r)
        = '"' :: encStrBody x.data ('"' :: (']' :: r)) from by
      rw [List.cons_append, encStrBody_append]
      rfl]
    rw [parseJsonItems, parseJsonVal_str]
    have hsk : skipJsonWs (']' :: r) = ']' :: r := by
      rw [skipJsonWs, List.dropWhile_cons, if_neg (by decide)]
    simp [hsk]
  | cons y ys ih =>
    intro x r fuel hfuel
    obtain ⟨f, rfl⟩ : ∃ f, fuel = f + 2 := ⟨fuel - 2, by omega⟩
    rw [encodeItemsTail, encodeJsonString]
    rw [show ('"' :: encStrBody x.data ['"'])
          ++ ((',' :: ' ' :: (encodeJsonString y ++ encodeItemsTail ys)) ++ r)
        = '"' :: encStrBody x.data
            ('"' :: (',' :: ' ' :: (encodeJsonString y ++ (encodeItemsTail ys ++ r)))) from by
      rw [List.cons_append, encStrBody_append]
      simp]
    rw [parseJsonItems, parseJsonVal_str]
    have hsk : skipJsonWs (',' :: ' ' :: (encodeJsonString y ++ (encodeItemsTail ys ++ r)))
        = ',' :: ' ' :: (encodeJsonString y ++ (encodeItemsTail ys ++ r)) := by
      rw [skipJsonWs, List.dropWhile_cons, if_neg (by decide)]
    have hrec := ih y r (f + 1) (by simp only [List.length_cons] at hfuel; omega)
    simp [hsk, parseJsonItems_cons_space, hrec]


theorem encStrBody_length (cs t : List Char) : t.length ≤ (encStrBody cs t).length := by
  induction cs with
  | nil => exact le_refl _
  | cons c cs ih =>
    show t.length ≤ (escapeChar c ++ encStrBody cs t).length
    rw [List.length_append]
    exact le_trans ih (Nat.le_add_left _ _)

theorem encodeItemsTail_length (xs : List String) :
    xs.length + 1 ≤ (encodeItemsTail xs).length := by
  induction xs with
  | nil => simp [encodeItemsTail]
  | cons y ys ih =>
    show (y :: ys).length + 1 ≤ (',' :: ' ' :: (encodeJsonString y ++ encodeItemsTail ys)).length
    simp only [List.length_cons, List.length_append]
    omega

/-- `json.loads` inverts `json.dumps` on lists of strings. -/
theorem json_loads_dumps (l : List String) :
    json_loads (json_dumps_strList l) = some (JVal.arr (l.map JVal.str)) := by
  cases l with
  | nil => rfl
  | cons x xs =>
    rw [json_dumps_strList]
    have hlen : xs.length + 2 ≤ ('[' :: (encodeJsonString x ++ encodeItemsTail xs)).length := by
      have h1 := encodeItemsTail_length xs
      have h2 := encStrBody_length x.data ['"']
      simp only [List.length_cons, List.length_append, encodeJsonString] at *
      omega
    have hhead : (encodeJsonString x ++ encodeItemsTail xs).head? = some '"' := by
      rw [encodeJsonString, List.cons_append, List.head?_cons]
    have hsk : skipJsonWs (encodeJsonString x ++ encodeItemsTail xs)
        = encodeJsonString x ++ encodeItemsTail xs := by
      rw [encodeJsonString, List.cons_append, skipJsonWs, List.dropWhile_cons,
        if_neg (by decide), ← List.cons_append, ← encodeJsonString]
    have hitems := parseJsonItems_encode xs x []
      (('[' :: (encodeJsonString x ++ encodeItemsTail xs)).length) (le_trans hlen (by simp))
    rw [List.append_nil] at hitems
    have hval : parseJsonVal
        (('[' :: (encodeJsonString x ++ encodeItemsTail xs)).length + 1)
        ('[' :: (encodeJsonString x ++ encodeItemsTail xs))
        = some (JVal.arr ((x :: xs).map JVal.str), []) := by
      rw [parseJsonVal]
      rw [show skipJsonWs ('[' :: (encodeJsonString x ++ encodeItemsTail xs))
          = '[' :: (encodeJsonString x ++ encodeItemsTail xs) from by
        rw [skipJsonWs, List.dropWhile_cons, if_neg (by decide)]]
      dsimp only
      rw [if_neg (by decide), if_pos rfl, hsk]
      rw [if_neg (by rw [hhead]; decide), hitems]
      rfl
    have hdata : (String.mk ('[' :: (encodeJsonString x ++ encodeItemsTail xs))).data
        = '[' :: (encodeJsonString x ++ encodeItemsTail xs) := rfl
    rw [json_loads, hdata, hval]
    rfl

/-- `Database.insert_price_record` (`src/database.py` lines 191-230):
`sizes_json = json.dumps(sizes_available) if sizes_available else None`, so a
missing — or empty, hence falsy — list is stored as NULL; then an
unconditional append.  (`PRAGMA foreign_keys` is executed only on the
initialization connection, so the foreign key is not enforced on this
per-call connection.) -/
def insert_price_record (db : DB) (item_id : ℕ) (colorway_name : Option String)
    (listed_price sale_price : Option ℚ) (sizes_available : Option (List String))
    (screenshot_url : Option String) : DB × ℕ :=
  let sizes_json : Option String :=
    match sizes_available with
    | some l => if l.isEmpty then none else some (json_dumps_strList l)
    | none => none
  ({ db with
      price_history := db.price_history ++
        [⟨db.nextPriceId, item_id, db.now, colorway_name, listed_price, sale_price,
          sizes_json, screenshot_url⟩],
      nextPriceId := db.nextPriceId + 1,
      now := db.now + 1 }, db.nextPriceId)

/-- The row selected by `ORDER BY scraped_at DESC LIMIT 1`.  In the model
timestamps are strictly increasing, so the maximum is unique (among equal
stamps the later row would win). -/
def latestBy (rows : List PriceRow) : Option PriceRow :=
  rows.foldl (fun acc r =>
    match acc with
    | none => some r
    | some b => if b.scraped_at ≤ r.scraped_at then some r else some b) none

/-- The `sizes_available` entry of the dict returned by `get_latest_price`:
a falsy column value (NULL or the empty string) is left as it is, otherwise
the stored text is parsed with `json.loads` (a parse failure would raise;
rows written by `insert_price_record` always parse). -/
def parsedSizes (col : Option String) : Option JVal :=
  match col with
  | none => none
  | some s => if s.data.isEmpty then some (JVal.str s) else json_loads s

/-- `Database.get_latest_price` (`src/database.py` lines 264-292): the most
recent `price_history` row for the item (and colorway, when that argument is
truthy), returned as the raw row paired with the decoded `sizes_available`
value. -/
def get_latest_price (db : DB) (item_id : ℕ) (colorway_name : Option String) :
    Option (PriceRow × Option JVal) :=
  let rows :=
    match colorway_name with
    | some c =>
      if c.isEmpty then db.price_history.filter (fun r => r.item_id = item_id)
      else
        db.price_history.filter
          (fun r => r.item_id = item_id ∧ r.colorway_name = some c)
    | none => db.price_history.filter (fun r => r.item_id = item_id)
  (latestBy rows).map (fun r => (r, parsedSizes r.sizes_available))

theorem latestBy_foldl_mem (rows : List PriceRow) :
    ∀ (acc : Option PriceRow) (b : PriceRow),
    rows.foldl (fun acc r =>
      match acc with
      | none => some r
      | some b => if b.scraped_at ≤ r.scraped_at then some r else some b) acc = some b →
    b ∈ rows ∨ acc = some b := by
  induction rows with
  | nil => intro acc b h; exact Or.inr h
  | cons r rs ih =>
    intro acc b h
    rw [List.foldl_cons] at h
    rcases ih _ b h with hmem | hacc
    · exact Or.inl (List.mem_cons_of_mem _ hmem)
    · cases acc with
      | none =>
        simp only at hacc
        injection hacc with h1
        exact Or.inl (h1 ▸ List.mem_cons_self _ _)
      | some a =>
        simp only at hacc
        by_cases hle : a.scraped_at ≤ r.scraped_at
        · rw [if_pos hle] at hacc
          injection hacc with h1
          exact Or.inl (h1 ▸ List.mem_cons_self _ _)
        · rw [if_neg hle] at hacc
          exact Or.inr hacc

theorem latestBy_append_last (rows : List PriceRow) (r : PriceRow)
    (h : ∀ b ∈ rows, b.scraped_at ≤ r.scraped_at) :
    latestBy (rows ++ [r]) = some r := by
  rw [latestBy, List.foldl_append]
  cases hl : latestBy rows with
  | none =>
    rw [latestBy] at hl
    rw [hl]
    rfl
  | some b =>
    rw [latestBy] at hl
    rw [hl]
    simp only [List.foldl_cons, List.foldl_nil]
    have hb : b ∈ rows := by
      rcases latestBy_foldl_mem rows none b hl with hmem | habs
      · exact hmem
      · exact absurd habs (by simp)
    rw [if_pos (h b hb)]

/-- Claim C10: `insert_price_record` stores an empty `sizes_available` list
as NULL, exactly as when the argument is omitted (`None`); consequently the
round-trip through `insert_price_record` and `get_latest_price` maps a
nonempty sizes list to itself (via JSON encoding and decoding) and maps the
empty list to null rather than back to `[]`.  The hypothesis is the clock
invariant maintained by every write: all existing rows are older than
`now`. -/
theorem c10_sizes_roundtrip (db : DB) (item_id : ℕ) (cw : Option String)
    (lp sp : Option ℚ) (ss : Option String) (l : List String)
    (hclock : ∀ r ∈ db.price_history, r.scraped_at < db.now) :
    insert_price_record db item_id cw lp sp (some []) ss
        = insert_price_record db item_id cw lp sp none ss
      ∧ get_latest_price (insert_price_record db item_id cw lp sp (some l) ss).1 item_id none
        = some (⟨db.nextPriceId, item_id, db.now, cw, lp, sp,
            if l.isEmpty then none else some (json_dumps_strList l), ss⟩,
          if l.isEmpty then none else some (JVal.arr (l.map JVal.str))) := by
  constructor
  · rfl
  · rw [insert_price_record]
    simp only
    rw [get_latest_price]
    simp only
    rw [List.filter_append]
    rw [show List.filter (fun r => decide (r.item_id = item_id))
        [(⟨db.nextPriceId, item_id, db.now, cw, lp, sp,
          match some l with
          | some l => if l.isEmpty then none else some (json_dumps_strList l)
          | none => none, ss⟩ : PriceRow)]
        = [⟨db.nextPriceId, item_id, db.now, cw, lp, sp,
            match some l with
            | some l => if l.isEmpty then none else some (json_dumps_strList l)
            | none => none, ss⟩] from by simp]
    rw [latestBy_append_last]
    · simp only [Option.map_some']
      cases hl : l with
      | nil => rfl
      | cons x xs =>
        simp only [List.isEmpty_cons, Bool.false_eq_true, if_false]
        rw [show parsedSizes (some (json_dumps_strList (x :: xs)))
            = json_loads (json_dumps_strList (x :: xs)) from rfl]
        rw [json_loads_dumps]
    · intro b hb
      have hmem := List.mem_filter.mp hb
      exact le_of_lt (hclock b hmem.1)

/-- Witness for C10: on a fresh database, inserting a record with sizes
`["M"]` and reading the latest record back yields `["M"]` again. -/
theorem c10_sizes_roundtrip_witness :
    get_latest_price (insert_price_record DB.init 1 none none none (some ["M"]) none).1 1 none
      = some (⟨1, 1, 0, none, none, none, some (json_dumps_strList ["M"]), none⟩,
          some (JVal.arr [JVal.str "M"])) := by
  have h := (c10_sizes_roundtrip DB.init 1 none none none none ["M"]
    (by intro r hr; simp [DB.init] at hr)).2
  simpa using h

/-! ### Batch orchestrator (`scripts/scrape_all.py`) -/

/-- `ItemConfig` (`src/config.py`): a validated tracked-item declaration.
It declares exactly `url` and `scrape_frequency` — no other field. -/
structure ItemConfig where
  url : String
  scrape_frequency : String
deriving DecidableEq, Repr

/-- A Python exception value as it matters to the orchestrator. -/
inductive PyErr where
  | attributeError (name : String)
  | exception (msg : String)
deriving DecidableEq, Repr

/-- `str(e)` for the exceptions above. -/
def pyErrMsg : PyErr → String
  | .attributeError n => "'ItemConfig' object has no attribute '" ++ n ++ "'"
  | .exception m => m

/-- The attribute access `item_config.colorway` in
`scrape_with_error_handling` (`scripts/scrape_all.py` line 18): `ItemConfig`
(`src/config.py`) declares no `colorway` field and does not allow extra
attributes, so this access raises `AttributeError`. -/
def itemConfig_colorway (_ : ItemConfig) : Except PyErr String :=
  Except.error (.attributeError "colorway")

/-- The product dictionary consumed by `scrape_with_error_handling`; every
field is read with `.get` except the final `data['name']` /
`data['sale_price']` subscripts, which raise `KeyError` on an absent key. -/
structure ProductData where
  name : Option String
  brand : Option String
  category : Option String
  colorway_name : Option String
  listed_price : Option ℚ
  sale_price : Option ℚ
  sizes_available : Option (List String)
deriving DecidableEq, Repr

/-- One per-item result entry as built by `scrape_with_error_handling`:
`{"success": True, "url": .., "data": ..}` or
`{"success": False, "url": .., "error": ..}`. -/
inductive ResultEntry where
  | success (url : String) (data : ProductData)
  | failure (url : String) (error : String)
deriving DecidableEq, Repr

/-- The externally determined events of one item's pipeline run: the outcome
of the `crawler.scrape_item(url, colorway=colorway)` call (with the current
signatures that call would itself raise `TypeError`; that is one possible
value of this oracle), and an injected storage-layer fault for
`insert_price_record` (`none` means the insert succeeds). -/
structure ScrapeOracle where
  scrapeCall : Except PyErr ProductData
  insertFault : Option String
deriving Repr

/-- `Database.log_scrape` (`src/database.py` lines 296-323). -/
def log_scrape (db : DB) (item_id : Option ℕ) (success : Bool)
    (error_message : Option String) : DB × ℕ :=
  ({ db with
      scrape_logs := db.scrape_logs ++
        [⟨db.nextLogId, item_id, db.now, success, error_message⟩],
      nextLogId := db.nextLogId + 1,
      now := db.now + 1 }, db.nextLogId)

/-- `Database.log_success`. -/
def log_success (db : DB) (item_id : ℕ) : DB × ℕ :=
  log_scrape db (some item_id) true none

/-- `Database.log_error`. -/
def log_error (db : DB) (item_id : Option ℕ) (error_message : String) : DB × ℕ :=
  log_scrape db item_id false (some error_message)

/-- The guarded section of `scrape_with_error_handling`
(`scripts/scrape_all.py` lines 23-51): scrape, register the item, insert the
price record, log success, print the summary line (whose
`data['name']`/`data['sale_price']` subscripts raise `KeyError` on an absent
key).  Any exception raised inside this section is caught by the `except`
handler, which calls `db.log_error(None, str(e))` and returns a failure
entry carrying the url. -/
def scrape_try_block (db : DB) (url : String) (o : ScrapeOracle) : DB × ResultEntry :=
  match o.scrapeCall with
  | .error e => ((log_error db none (pyErrMsg e)).1, .failure url (pyErrMsg e))
  | .ok data =>
    match add_item_if_new db url (data.name.getD "Unknown")
        (some (data.brand.getD "Unknown")) (some (data.category.getD "General")) with
    | .error msg => ((log_error db none msg).1, .failure url msg)
    | .ok (db1, item_id) =>
      match o.insertFault with
      | some fmsg =>
        ((log_error db1 none ("Error inserting price record: " ++ fmsg)).1,
          .failure url ("Error inserting price record: " ++ fmsg))
      | none =>
        let db2 := (insert_price_record db1 item_id data.colorway_name
          data.listed_price data.sale_price data.sizes_available none).1
        let db3 := (log_success db2 item_id).1
        match data.name, data.sale_price with
        | some _, some _ => (db3, .success url data)
        | none, _ => ((log_error db3 none "'name'").1, .failure url "'name'")
        | some _, none =>
          ((log_error db3 none "'sale_price'").1, .failure url "'sale_price'")

/-- `scrape_with_error_handling` (`scripts/scrape_all.py` lines 15-51).  The
`colorway = item_config.colorway` access at line 18 happens before the `try`
block; on the current `ItemConfig` it always raises, so the guarded section
is unreachable and the coroutine propagates the `AttributeError`. -/
def scrape_with_error_handling (db : DB) (cfg : ItemConfig) (o : ScrapeOracle) :
    DB × Except PyErr ResultEntry :=
  match itemConfig_colorway cfg with
  | .error e => (db, .error e)
  | .ok _ =>
    let (db', entry) := scrape_try_block db cfg.url o
    (db', .ok entry)

/-- `asyncio.gather(*tasks, return_exceptions=True)` over the per-item tasks
of `main` (`scripts/scrape_all.py` lines 74-81): slot `i` of the result list
receives the outcome of task `i` — the returned entry, or the exception
object itself when the coroutine raised.  The fold is sequential; that is
adequate here because with the current code every task fails before its
first database write, so the collected outcomes are independent of the
interleaving.  (The admission semaphore is modelled separately below.) -/
def gatherResults (db : DB) : List (ItemConfig × ScrapeOracle) →
    DB × List (Except PyErr ResultEntry)
  | [] => (db, [])
  | (cfg, o) :: rest =>
    let (db1, r) := scrape_with_error_handling db cfg o
    let (db2, rs) := gatherResults db1 rest
    (db2, r :: rs)

/-- Claim C6 (code bug): a batch over a URL matched by no registered
extractor does complete and the error does not propagate out of the batch,
but the item's result entry is the bare `AttributeError` raised by the
`item_config.colorway` access before the `try` block — not a
`{success: false, url, error}` record — and no ScrapeLog row is written:
the database is returned unchanged. -/
theorem c6_no_strategy_code_bug :
    gatherResults DB.init
        [(⟨"https://example.com/nothing", "daily"⟩,
          ⟨Except.error
            (.exception "No extractor found for URL: https://example.com/nothing"),
            none⟩)]
      = (DB.init, [Except.error (PyErr.attributeError "colorway")]) := rfl

/-- Claim C7 (code bug): a two-item batch yields one entry per input, in
input order; but each entry is the bare colorway `AttributeError` object —
the failed entries carry no url, contrary to the claim. -/
theorem c7_result_order_code_bug :
    gatherResults DB.init
        [(⟨"https://a.example/1", "daily"⟩, ⟨Except.error (.exception "x"), none⟩),
         (⟨"https://b.example/2", "daily"⟩, ⟨Except.error (.exception "y"), none⟩)]
      = (DB.init,
          [Except.error (PyErr.attributeError "colorway"),
           Except.error (PyErr.attributeError "colorway")]) := rfl

/-- Claim C9 (code bug): (1) with the current code a per-item failure — the
pre-`try` colorway `AttributeError` — produces NO scrape-log row at all (the
database is unchanged), contradicting "on every per-item failure the
orchestrator writes the scrape-log row"; (2) the claim is right about the
handler itself: every failure caught by the guarded section's `except` —
including failures after successful registration, such as a failing price
record insert — appends a log row with `item_id = null` and `success =
false`, never attributing it to the registered item. -/
theorem log_error_last (db : DB) (m : String) :
    ∃ row, (log_error db none m).1.scrape_logs.getLast? = some row
      ∧ row.item_id = none ∧ row.success = false ∧ row.error_message = some m := by
  refine ⟨⟨db.nextLogId, none, db.now, false, some m⟩, ?_, rfl, rfl, rfl⟩
  simp [log_error, log_scrape]

theorem c9_null_item_logging :
    (scrape_with_error_handling DB.init ⟨"https://example.com/p", "daily"⟩
        ⟨Except.error (.exception "boom"), none⟩
      = (DB.init, Except.error (PyErr.attributeError "colorway")))
    ∧ (∀ (db : DB) (url : String) (o : ScrapeOracle) (msg : String),
        (scrape_try_block db url o).2 = ResultEntry.failure url msg →
        ∃ row, (scrape_try_block db url o).1.scrape_logs.getLast? = some row
          ∧ row.item_id = none ∧ row.success = false ∧ row.error_message = some msg) := by
  constructor
  · rfl
  · intro db url o msg h
    rcases o with ⟨sc, insf⟩
    cases sc with
    | error e =>
      have h' : ResultEntry.failure url (pyErrMsg e) = ResultEntry.failure url msg := h
      injection h' with _ hmsg
      exact hmsg ▸ log_error_last db (pyErrMsg e)
    | ok data =>
      simp only [scrape_try_block] at h ⊢
      cases hadd : add_item_if_new db url (data.name.getD "Unknown")
          (some (data.brand.getD "Unknown")) (some (data.category.getD "General")) with
      | error m =>
        rw [hadd] at h
        have h' : ResultEntry.failure url m = ResultEntry.failure url msg := h
        injection h' with _ hmsg
        exact hmsg ▸ log_error_last db m
      | ok p =>
        rw [hadd] at h
        rcases p with ⟨db1, item_id⟩
        cases insf with
        | some fmsg =>
          have h' : ResultEntry.failure url ("Error inserting price record: " ++ fmsg)
              = ResultEntry.failure url msg := h
          injection h' with _ hmsg
          exact hmsg ▸ log_error_last db1 ("Error inserting price record: " ++ fmsg)
        | none =>
          cases hn : data.name with
          | none =>
            rw [hn] at h
            have h' : ResultEntry.failure url "'name'" = ResultEntry.failure url msg := h
            injection h' with _ hmsg
            exact hmsg ▸ log_error_last _ "'name'"
          | some nm =>
            rw [hn] at h
            cases hsp : data.sale_price with
            | none =>
              rw [hsp] at h
              have h' : ResultEntry.failure url "'sale_price'"
                  = ResultEntry.failure url msg := h
              injection h' with _ hmsg
              exact hmsg ▸ log_error_last _ "'sale_price'"
            | some sp =>
              rw [hsp] at h
              have h' : ResultEntry.success url data = ResultEntry.failure url msg := h
              exact absurd h' (by simp)

/-- Witness for C9: a failing price-record insert after successful
registration is logged with a null `item_id`. -/
theorem c9_null_item_logging_witness :
    ∃ row, (scrape_try_block DB.init "https://example.com/p"
        ⟨Except.ok ⟨some "Hoodie", none, none, none, none, some 56, none⟩,
          some "disk full"⟩).1.scrape_logs.getLast? = some row
      ∧ row.item_id = none ∧ row.success = false
      ∧ row.error_message = some "Error inserting price record: disk full" :=
  c9_null_item_logging.2 DB.init "https://example.com/p"
    ⟨Except.ok ⟨some "Hoodie", none, none, none, none, some 56, none⟩, some "disk full"⟩
    "Error inserting price record: disk full" rfl

/-! ### Concurrency bound (`asyncio.Semaphore(5)` in `scripts/scrape_all.py`)

The per-item tasks built by `main` each run
`async with semaphore: return await scrape_with_error_handling(...)`
(`limited_scrape`, lines 67-72).  The protocol below is the standard
interleaving model of that code: a task is `pending` until the semaphore
admits it, `holding` while it is inside the `async with` block, and `done`
after the block exits — normally or with an exception — at which point the
permit is back with the semaphore (`async with` releases on every exit
path). -/

/-- The lifecycle of one `limited_scrape` task.  `done ok` records whether
the body returned normally (`true`) or raised (`false`); either way the
permit was released when the phase became `done`. -/
inductive TaskPhase where
  | pending
  | holding
  | done (ok : Bool)
deriving DecidableEq, Repr

/-- The number of permits currently held, i.e. of tasks inside the
`async with semaphore` block. -/
def holdingCount (ps : List TaskPhase) : ℕ :=
  ps.countP (fun p => p = TaskPhase.holding)

/-- One scheduler step of the batch under permit bound `K`: `acquire` admits
a pending task only while fewer than `K` permits are held
(`asyncio.Semaphore(K)`); `finish` completes a holding task — normally or
with an exception — releasing its permit. -/
inductive BatchStep (K : ℕ) : List TaskPhase → List TaskPhase → Prop where
  | acquire (ps : List TaskPhase) (i : ℕ) (hi : ps[i]? = some TaskPhase.pending)
      (hK : holdingCount ps < K) : BatchStep K ps (ps.set i TaskPhase.holding)
  | finish (ps : List TaskPhase) (i : ℕ) (ok : Bool)
      (hi : ps[i]? = some TaskPhase.holding) :
      BatchStep K ps (ps.set i (TaskPhase.done ok))

/-- The states reachable by a batch of `n` tasks under permit bound `K`,
from the initial state in which every task awaits admission. -/
def BatchReachable (K n : ℕ) (ps : List TaskPhase) : Prop :=
  Relation.ReflTransGen (BatchStep K) (List.replicate n TaskPhase.pending) ps

theorem countP_set_phase (p : TaskPhase → Bool) (ps : List TaskPhase) :
    ∀ (i : ℕ) (a : TaskPhase), (hi : i < ps.length) →
    (ps.set i a).countP p + (if p ps[i] then 1 else 0)
      = ps.countP p + (if p a then 1 else 0) := by
  induction ps with
  | nil => intro i a hi; simp at hi
  | cons x xs ih =>
    intro i a hi
    cases i with
    | zero =>
      simp only [List.set_cons_zero, List.countP_cons, List.getElem_cons_zero]
      split_ifs <;> omega
    | succ i =>
      simp only [List.set_cons_succ, List.countP_cons, List.getElem_cons_succ]
      have h2 := ih i a (by simpa using hi)
      split_ifs at h2 ⊢ <;> omega

/-- Claim C8: in every state reachable during a batch run with the default
permit bound of 5 — however the scheduler interleaves acquisitions and
completions, and whether bodies complete normally or raise — at most 5
tasks hold a permit simultaneously; and once every task is done (each
having released its permit on its exit path) no permit is held. -/
theorem c8_semaphore_bound (n : ℕ) :
    (∀ ps, BatchReachable 5 n ps → holdingCount ps ≤ 5)
      ∧ (∀ ps, BatchReachable 5 n ps →
          (∀ q ∈ ps, ∃ b, q = TaskPhase.done b) → holdingCount ps = 0) := by
  have hmain : ∀ ps, BatchReachable 5 n ps → holdingCount ps ≤ 5 := by
    intro ps h
    induction h with
    | refl =>
      rw [holdingCount, List.countP_eq_zero.mpr]
      · exact Nat.zero_le 5
      · intro q hq
        rw [List.eq_of_mem_replicate hq]
        decide
    | tail hsteps hstep ih =>
      rename_i b c
      cases hstep with
      | acquire i hi hK =>
        have hlen : i < b.length := by
          by_contra hcon
          rw [List.getElem?_eq_none (Nat.le_of_not_lt hcon)] at hi
          exact Option.noConfusion hi
        have hget : b[i] = TaskPhase.pending := by
          have hx := List.getElem?_eq_getElem hlen
          rw [hx] at hi
          exact Option.some.inj hi
        have hc := countP_set_phase (fun p => p = TaskPhase.holding) b i TaskPhase.holding hlen
        rw [hget] at hc
        rw [if_neg (by decide), if_pos (by decide)] at hc
        rw [holdingCount] at *
        omega
      | finish i ok hi =>
        have hlen : i < b.length := by
          by_contra hcon
          rw [List.getElem?_eq_none (Nat.le_of_not_lt hcon)] at hi
          exact Option.noConfusion hi
        have hget : b[i] = TaskPhase.holding := by
          have hx := List.getElem?_eq_getElem hlen
          rw [hx] at hi
          exact Option.some.inj hi
        have hc := countP_set_phase (fun p => p = TaskPhase.holding) b i (TaskPhase.done ok) hlen
        rw [hget] at hc
        rw [if_pos (by decide), if_neg (by simp)] at hc
        rw [holdingCount] at *
        omega
  refine ⟨hmain, ?_⟩
  intro ps _ hdone
  rw [holdingCount, List.countP_eq_zero.mpr]
  intro q hq
  obtain ⟨b, rfl⟩ := hdone q hq
  simp

/-- Witness for C8: with 12 tasks (the spec's instrumentation scenario),
after one task is admitted the permit count is within the bound. -/
theorem c8_semaphore_bound_witness :
    holdingCount ((List.replicate 12 TaskPhase.pending).set 0 TaskPhase.holding) ≤ 5 :=
  (c8_semaphore_bound 12).1 _
    (Relation.ReflTransGen.single
      (BatchStep.acquire (List.replicate 12 TaskPhase.pending) 0 (by decide) (by decide)))

/-! ### Content selector (`PriceCrawler._extract_product_section`,
`src/crawler.py` lines 143-187) -/

/-- Does the price regex `\$\s*\d+(?:\.\d{2})?` match at the head of this
tail: a dollar sign, optional whitespace, then at least one digit (the
optional cents part does not affect where matches start). -/
def priceMatchHead : List Char → Bool
  | '$' :: rest => (((rest.dropWhile isPySpace).head?.map Char.isDigit).getD false)
  | _ => false

/-- Start positions (from `i`) of the price-pattern matches, in increasing
order.  A match of this pattern contains no second `$`, so matches cannot
overlap and `re.finditer` reports exactly the positions where the pattern
matches. -/
def priceMatchPositionsAux : ℕ → List Char → List ℕ
  | _, [] => []
  | i, c :: rest =>
    if priceMatchHead (c :: rest) then i :: priceMatchPositionsAux (i + 1) rest
    else priceMatchPositionsAux (i + 1) rest

/-- `list(re.finditer(price_pattern, markdown))`, as start offsets. -/
def priceMatchPositions (cs : List Char) : List ℕ :=
  priceMatchPositionsAux 0 cs

/-- The price pattern matches at offset `p` of the text. -/
def priceMatchAt (cs : List Char) (p : ℕ) : Bool :=
  priceMatchHead (cs.drop p)

/-- `\s+[A-Z]`: at least one whitespace character, then an ASCII capital
(the character classes are disjoint, so greediness is irrelevant). -/
def wsThenUpper (cs : List Char) : Bool :=
  !(cs.takeWhile isPySpace).isEmpty
    && (((cs.dropWhile isPySpace).head?.map Char.isUpper).getD false)

/-- Does the header regex `^#{1,2}\s+[A-Z].*$` match at the head of this
tail (the line-start anchoring is handled by the caller): one or two `#`,
whitespace, a capital letter. -/
def headerMatchHead : List Char → Bool
  | '#' :: rest =>
    (match rest with
     | '#' :: r2 => wsThenUpper r2
     | r => wsThenUpper r)
  | _ => false

/-- Start positions of the header matches; with `re.MULTILINE`, `^` matches
at offset 0 and right after every newline. -/
def headerPositionsAux : ℕ → Bool → List Char → List ℕ
  | _, _, [] => []
  | i, atLineStart, c :: rest =>
    if atLineStart && headerMatchHead (c :: rest) then
      i :: headerPositionsAux (i + 1) (c = '\n') rest
    else headerPositionsAux (i + 1) (c = '\n') rest

/-- The start offset of the first header match, if any. -/
def firstHeaderPos (cs : List Char) : Option ℕ :=
  (headerPositionsAux 0 true cs).head?

/-- The `for match in price_matches` loop (`src/crawler.py` lines 163-173):
the window `[max(0, pos-3000), min(len, pos+15000))` around the first match
whose extent exceeds 5000 characters. -/
def firstAcceptedWindow (len : ℕ) : List ℕ → Option (ℕ × ℕ)
  | [] => none
  | pos :: rest =>
    if 5000 < min len (pos + 15000) - (pos - 3000) then
      some (pos - 3000, min len (pos + 15000))
    else firstAcceptedWindow len rest

/-- The `(start, end)` span of the text slice returned by
`_extract_product_section`: the accepted price window when one exists,
otherwise the window around the first header, otherwise the after-the-first
fifth fallback slice. -/
def productSectionSpan (cs : List Char) (maxChars : ℕ) : ℕ × ℕ :=
  match firstAcceptedWindow cs.length (priceMatchPositions cs) with
  | some se => se
  | none =>
    match firstHeaderPos cs with
    | some pos => (pos - 1000, min cs.length ((pos - 1000) + maxChars))
    | none => (cs.length / 5, min cs.length (cs.length / 5 + maxChars))

/-- `PriceCrawler._extract_product_section`: the returned string is
`markdown[start:end]` for the span above. -/
def _extract_product_section (cs : List Char) (maxChars : ℕ) : List Char :=
  (cs.take (productSectionSpan cs maxChars).2).drop (productSectionSpan cs maxChars).1

theorem priceMatchPositionsAux_mem (cs : List Char) :
    ∀ (i P : ℕ), P ∈ priceMatchPositionsAux i cs →
      i ≤ P ∧ P < i + cs.length ∧ priceMatchHead (cs.drop (P - i)) = true := by
  induction cs with
  | nil =>
    intro i P h
    simp [priceMatchPositionsAux] at h
  | cons c rest ih =>
    intro i P h
    rw [priceMatchPositionsAux] at h
    by_cases hm : priceMatchHead (c :: rest) = true
    · rw [if_pos hm] at h
      rcases List.mem_cons.mp h with rfl | h2
      · refine ⟨le_refl _, by simp, ?_⟩
        simpa [Nat.sub_self] using hm
      · obtain ⟨h3, h4, h5⟩ := ih (i + 1) P h2
        refine ⟨by omega, by simp only [List.length_cons]; omega, ?_⟩
        rw [show P - i = (P - (i + 1)) + 1 from by omega, List.drop_succ_cons]
        exact h5
    · rw [if_neg hm] at h
      obtain ⟨h3, h4, h5⟩ := ih (i + 1) P h
      refine ⟨by omega, by simp only [List.length_cons]; omega, ?_⟩
      rw [show P - i = (P - (i + 1)) + 1 from by omega, List.drop_succ_cons]
      exact h5

theorem firstAcceptedWindow_spec (len : ℕ) (ps : List ℕ) (s e : ℕ)
    (h : firstAcceptedWindow len ps = some (s, e)) :
    ∃ P ∈ ps, s = P - 3000 ∧ e = min len (P + 15000) ∧ 5000 < e - s := by
  induction ps with
  | nil => simp [firstAcceptedWindow] at h
  | cons pos rest ih =>
    rw [firstAcceptedWindow] at h
    by_cases hc : 5000 < min len (pos + 15000) - (pos - 3000)
    · rw [if_pos hc] at h
      injection h with h1
      rw [Prod.mk.injEq] at h1
      obtain ⟨h1a, h1b⟩ := h1
      refine ⟨pos, List.mem_cons_self _ _, h1a.symm, h1b.symm, ?_⟩
      rw [← h1a, ← h1b]
      exact hc
    · rw [if_neg hc] at h
      obtain ⟨P, hP, hrest⟩ := ih h
      exact ⟨P, List.mem_cons_of_mem _ hP, hrest⟩

/-- The concrete text for C3: 18001 characters, with price matches at
offsets 0 and 17000 and nothing else of note. -/
def c3Text : List Char :=
  '$' :: '1' :: (List.replicate 16998 'z' ++ ('$' :: '1' :: List.replicate 999 'z'))

theorem priceMatchPositionsAux_replicate (n : ℕ) :
    ∀ (i : ℕ) (rest : List Char),
    priceMatchPositionsAux i (List.replicate n 'z' ++ rest)
      = priceMatchPositionsAux (i + n) rest := by
  induction n with
  | zero =>
    intro i rest
    simp
  | succ n ih =>
    intro i rest
    have hz : priceMatchHead ('z' :: (List.replicate n 'z' ++ rest)) = false := rfl
    rw [List.replicate_succ, List.cons_append, priceMatchPositionsAux, if_neg (by simp [hz])]
    rw [ih (i + 1) rest, show i + 1 + n = i + (n + 1) from by omega]

theorem c3Text_length : c3Text.length = 18001 := by
  simp only [c3Text, List.length_cons, List.length_append, List.length_replicate]

theorem c3Text_positions : priceMatchPositions c3Text = [0, 17000] := by
  rw [priceMatchPositions, c3Text]
  rw [priceMatchPositionsAux, if_pos (by decide)]
  rw [priceMatchPositionsAux, if_neg (by decide)]
  rw [priceMatchPositionsAux_replicate, show 0 + 1 + 1 + 16998 = 17000 from by norm_num]
  rw [priceMatchPositionsAux, if_pos (by decide)]
  rw [priceMatchPositionsAux, if_neg (by decide)]
  rw [show List.replicate 999 'z' = List.replicate 999 'z' ++ [] from (List.append_nil _).symm]
  rw [priceMatchPositionsAux_replicate]
  rfl

theorem c3Text_matchAt : priceMatchAt c3Text 17000 = true := by
  rw [priceMatchAt, c3Text]
  rw [show (17000 : ℕ) = 16998 + 1 + 1 from by norm_num]
  rw [List.drop_succ_cons, List.drop_succ_cons]
  rw [List.drop_left' (List.length_replicate 16998 'z')]
  decide

theorem c3Text_window :
    firstAcceptedWindow c3Text.length (priceMatchPositions c3Text) = some (0, 15000) := by
  rw [c3Text_length, c3Text_positions]
  decide

theorem c3Text_span : productSectionSpan c3Text 20000 = (0, 15000) := by
  rw [productSectionSpan, c3Text_window]

/-- Claim C3, counterexample: this text has length 18001 > 18000 and a
currency-amount match at offset P = 17000, yet the selector returns the
window `[0, 15000)` built around the *first* match (offset 0), which does
not contain offset 17000. -/
theorem c3_window_counterexample :
    18000 < c3Text.length
      ∧ priceMatchAt c3Text 17000 = true
      ∧ productSectionSpan c3Text 20000 = (0, 15000)
      ∧ (productSectionSpan c3Text 20000).2 ≤ 17000 := by
  refine ⟨by rw [c3Text_length]; norm_num, c3Text_matchAt, c3Text_span, ?_⟩
  rw [c3Text_span]
  norm_num

/-- Claim C3 (amended): whenever the price scan finds a match whose clipped
window exceeds 5000 characters, the selector returns exactly the window of
the first such match: a span of length greater than 5000 that contains that
match's offset `P` (`start = max(0, P-3000) ≤ P < min(len, P+15000) = end`),
and the returned text is the corresponding slice.  (For a later match — or
when every window is rejected and a fallback slice is returned — the window
need not contain the match offset, as the counterexample shows.) -/
theorem c3_window_amended (cs : List Char) (maxChars s e : ℕ)
    (hlen : 18000 < cs.length)
    (hfound : firstAcceptedWindow cs.length (priceMatchPositions cs) = some (s, e)) :
    productSectionSpan cs maxChars = (s, e)
      ∧ 5000 < e - s
      ∧ _extract_product_section cs maxChars = (cs.take e).drop s
      ∧ ∃ P, P ∈ priceMatchPositions cs ∧ priceMatchAt cs P = true
          ∧ s = P - 3000 ∧ e = min cs.length (P + 15000) ∧ s ≤ P ∧ P < e := by
  have hspan : productSectionSpan cs maxChars = (s, e) := by
    rw [productSectionSpan, hfound]
  obtain ⟨P, hPmem, hs, he, hgt⟩ := firstAcceptedWindow_spec _ _ _ _ hfound
  obtain ⟨-, hPlt, hPmatch⟩ := priceMatchPositionsAux_mem cs 0 P hPmem
  refine ⟨hspan, hgt, by rw [_extract_product_section, hspan], P, hPmem, ?_, hs, he, ?_, ?_⟩
  · rw [priceMatchAt]
    simpa using hPmatch
  · rw [hs]
    exact Nat.sub_le _ _
  · rw [he]
    exact lt_min (by simpa using hPlt) (by omega)

/-- Witness for C3: on the concrete text the first match (offset 0) has an
accepted window `[0, 15000)`, and the theorem's conclusion holds there. -/
theorem c3_window_amended_witness :
    productSectionSpan c3Text 20000 = (0, 15000)
      ∧ 5000 < 15000 - 0
      ∧ _extract_product_section c3Text 20000 = (c3Text.take 15000).drop 0
      ∧ ∃ P, P ∈ priceMatchPositions c3Text ∧ priceMatchAt c3Text P = true
          ∧ 0 = P - 3000 ∧ 15000 = min c3Text.length (P + 15000) ∧ 0 ≤ P ∧ P < 15000 :=
  c3_window_amended c3Text 20000 0 15000 (by rw [c3Text_length]; norm_num) c3Text_window

end PriceTracker
